import Mathlib

/-!
# go-tinyserver: address validation, admission and option resolution

A shallow embedding of `main.go` of go-tinyserver.

Go strings are modelled as lists of Unicode characters (`GoString`), that is,
Go strings holding valid UTF-8.  A byte index returned by `strings.IndexRune`
is only ever used to cut the prefix in front of the first occurrence of an
ASCII character, which is the same text in both views.

A run-time panic is modelled by `none`.
-/

namespace Tinyserver

/-- A Go string, as the list of its characters. -/
abbrev GoString := List Char

/-! ## Go standard library: `net.ParseIP` (validity only)

`main.go` only tests the result of `net.ParseIP` against `nil`, so the
library function is embedded as a predicate.  The definitions follow
`parseIPv4`, `parseIPv6`, `dtoi` and `xtoi` of package `net` as they stood in
the Go releases up to 1.16; later releases also refuse an octet written with
a leading zero, which no statement below depends on. -/

/-- The constant `big` of package `net`. -/
def big : Nat := 0xFFFFFF

/-- Loop of `net.dtoi`: `n` is the number read so far and `i` the count of
characters consumed.  Returns number, characters consumed, success. -/
def dtoiLoop : GoString → Nat → Nat → Nat × Nat × Bool
  | [], n, i => if i = 0 then (0, 0, false) else (n, i, true)
  | c :: cs, n, i =>
    if '0' ≤ c ∧ c ≤ '9' then
      let n1 := n * 10 + (c.toNat - '0'.toNat)
      if n1 ≥ big then (big, i, false) else dtoiLoop cs n1 (i + 1)
    else if i = 0 then (0, 0, false) else (n, i, true)

/-- Decimal to integer, `net.dtoi`. -/
def dtoi (s : GoString) : Nat × Nat × Bool := dtoiLoop s 0 0

/-- Loop of `net.xtoi`. -/
def xtoiLoop : GoString → Nat → Nat → Nat × Nat × Bool
  | [], n, i => if i = 0 then (0, i, false) else (n, i, true)
  | c :: cs, n, i =>
    if '0' ≤ c ∧ c ≤ '9' then
      let n1 := n * 16 + (c.toNat - '0'.toNat)
      if n1 ≥ big then (0, i, false) else xtoiLoop cs n1 (i + 1)
    else if 'a' ≤ c ∧ c ≤ 'f' then
      let n1 := n * 16 + (c.toNat - 'a'.toNat) + 10
      if n1 ≥ big then (0, i, false) else xtoiLoop cs n1 (i + 1)
    else if 'A' ≤ c ∧ c ≤ 'F' then
      let n1 := n * 16 + (c.toNat - 'A'.toNat) + 10
      if n1 ≥ big then (0, i, false) else xtoiLoop cs n1 (i + 1)
    else if i = 0 then (0, i, false) else (n, i, true)

/-- Hexadecimal to integer, `net.xtoi`. -/
def xtoi (s : GoString) : Nat × Nat × Bool := xtoiLoop s 0 0

/-- The loop of `net.parseIPv4` over the octet index `i`, with `k = 4 - i`
octets left to read.  `true` when the result is not `nil`. -/
def parseIPv4Loop : Nat → Bool → GoString → Bool
  | 0, _, s => s.length == 0
  | k + 1, first, s =>
    if s.length = 0 then false
    else
      let afterDot : Option GoString :=
        if first then some s
        else match s with
          | '.' :: rest => some rest
          | _ => none
      match afterDot with
      | none => false
      | some s1 =>
        match dtoi s1 with
        | (n, c, ok) =>
          if !ok || n > 0xFF then false
          else parseIPv4Loop k false (s1.drop c)

/-- Whether `net.parseIPv4 s` is not `nil`. -/
def parseIPv4 (s : GoString) : Bool := parseIPv4Loop 4 true s

/-- The hex-group loop of `net.parseIPv6`.  `i` is the count of bytes
filled, `ellipsis` the position of `::` if seen.  The result is `none` for
a `return nil` inside the loop and otherwise the values of `s`, `i` and
`ellipsis` on leaving the loop. -/
def parseIPv6Loop : Nat → GoString → Nat → Option Nat → Option (GoString × Nat × Option Nat)
  | 0, s, i, ellipsis => some (s, i, ellipsis)
  | fuel + 1, s, i, ellipsis =>
    if i < 16 then
      match xtoi s with
      | (n, c, ok) =>
        if !ok || n > 0xFFFF then none
        else if c < s.length ∧ (s.drop c).head? = some '.' then
          if ellipsis.isNone ∧ i ≠ 16 - 4 then none
          else if i + 4 > 16 then none
          else if !parseIPv4 s then none
          else some ([], i + 4, ellipsis)
        else
          let i1 := i + 2
          let s1 := s.drop c
          if s1.length = 0 then some (s1, i1, ellipsis)
          else
            match s1 with
            | [] => some (s1, i1, ellipsis)
            | c0 :: s2 =>
              if c0 ≠ ':' ∨ s1.length = 1 then none
              else
                match s2 with
                | ':' :: s3 =>
                  if ellipsis.isSome then none
                  else if s3.length = 0 then some (s3, i1, some i1)
                  else parseIPv6Loop fuel s3 i1 (some i1)
                | _ => parseIPv6Loop fuel s2 i1 ellipsis
    else some (s, i, ellipsis)

/-- Whether `net.parseIPv6 s` is not `nil`. -/
def parseIPv6 (s : GoString) : Bool :=
  let start : Option (GoString × Option Nat) :=
    match s with
    | ':' :: ':' :: rest => if rest.length = 0 then none else some (rest, some 0)
    | _ => some (s, none)
  match start with
  | none => true
  | some (s0, ellipsis0) =>
    match parseIPv6Loop 8 s0 0 ellipsis0 with
    | none => false
    | some (s1, i, ellipsis) =>
      if s1.length ≠ 0 then false
      else if i < 16 then ellipsis.isSome
      else !ellipsis.isSome

/-- Whether `net.ParseIP s` is not `nil`: the first `.` or `:` of `s`
selects the IPv4 or the IPv6 parser, and a string with neither is no
address. -/
def ParseIP (s : GoString) : Bool :=
  match s.find? (fun c => c == '.' || c == ':') with
  | some '.' => parseIPv4 s
  | some _ => parseIPv6 s
  | none => false

/-! ## `ipValidator` -/

/-- The closure `isIP4` of `ipValidator`: some rune of the address is `.`. -/
def isIP4 (address : GoString) : Bool := address.any (fun r => r == '.')

/-- The closure `isValid` of `ipValidator`: `net.ParseIP(ip) == nil`. -/
def isValid (ip : GoString) : Bool := !ParseIP ip

/-- The call `strings.IndexRune(s, r)`: index of the first `r`, or `-1`. -/
def IndexRune (s : GoString) (r : Char) : Int :=
  if r ∈ s then ((s.takeWhile (fun c => c != r)).length : Int) else -1

/-- The slice expression `s[:hi]`, which panics unless `0 ≤ hi ≤ len(s)`. -/
def sliceTo (s : GoString) (hi : Int) : Option GoString :=
  if 0 ≤ hi ∧ hi ≤ (s.length : Int) then some (s.take hi.toNat) else none

/-- The function `ipValidator` of `main.go`; `none` is a run-time panic. -/
def ipValidator (address : GoString) : Option GoString :=
  if isIP4 address then
    match sliceTo address (IndexRune address ':') with
    | none => none
    | some ip => if isValid ip then some ip else some []
  else
    if isValid address then some address else some []


/-! ## Go standard library: `strings` and `bufio.ScanLines` -/

/-- The predicate `unicode.IsSpace`. -/
def isSpace (c : Char) : Bool :=
  c == '\t' || c == '\n' || c.toNat == 0x0B || c.toNat == 0x0C || c == '\r' || c == ' ' ||
  c.toNat == 0x85 || c.toNat == 0xA0 || c.toNat == 0x1680 ||
  (0x2000 ≤ c.toNat && c.toNat ≤ 0x200A) ||
  c.toNat == 0x2028 || c.toNat == 0x2029 || c.toNat == 0x202F ||
  c.toNat == 0x205F || c.toNat == 0x3000

/-- The call `strings.TrimSpace(s)`. -/
def TrimSpace (s : GoString) : GoString :=
  (s.dropWhile isSpace).rdropWhile isSpace

/-- The call `strings.HasPrefix(s, pre)`. -/
def HasPrefix (s pre : GoString) : Bool := pre.isPrefixOf s

/-- The call `strings.TrimPrefix(s, pre)`. -/
def TrimPrefix (s pre : GoString) : GoString :=
  if HasPrefix s pre then s.drop pre.length else s

/-- The call `strings.Split(s, sep)` for a separator of one character, as
with `sep := " "` in `init`.  The empty string splits into one empty
token. -/
def Split : GoString → Char → List GoString
  | [], _ => [[]]
  | c :: cs, sep =>
    if c = sep then [] :: Split cs sep
    else
      match Split cs sep with
      | [] => [[c]]
      | t :: ts => (c :: t) :: ts

/-- The helper `dropCR` of package `bufio`. -/
def dropCR (data : GoString) : GoString :=
  if data.getLast? = some '\r' then data.dropLast else data

/-- The call `utf8.RuneLen(c)`: the count of bytes of a character. -/
def runeLen (c : Char) : Nat :=
  if c.toNat < 0x80 then 1
  else if c.toNat < 0x800 then 2
  else if c.toNat < 0x10000 then 3
  else 4

/-- The value `len(s)`: the count of bytes of a string. -/
def byteLen (s : GoString) : Nat := (s.map runeLen).sum

/-- The constant `bufio.MaxScanTokenSize`, the largest size the buffer of a
`bufio.Scanner` grows to. -/
def MaxScanTokenSize : Nat := 64 * 1024

/-- The lines of the text that follows the partial line `cur`, each without
its `\n`; a text that ends in `\n` has no further line behind it. -/
def rawLinesFrom (cur : GoString) : GoString → List GoString
  | [] => if cur.isEmpty then [] else [cur]
  | c :: cs =>
    if c = '\n' then cur :: rawLinesFrom [] cs
    else rawLinesFrom (cur ++ [c]) cs

/-- The lines of a text, each without its `\n`. -/
def rawLines (content : GoString) : List GoString := rawLinesFrom [] content

/-- The lines of a file as `bufio.ScanLines` cuts them: without the `\n` and
without one `\r` in front of it. -/
def fileLines (content : GoString) : List GoString := (rawLines content).map dropCR

/-- The tokens a `bufio.Scanner` with the split function `bufio.ScanLines`
hands out over the given bytes.  A line of `MaxScanTokenSize` bytes or more
fills the buffer before its end is seen: `Scan` sets `ErrTooLong` and returns
`false`, and neither that line nor a later one is handed out. -/
def ScanLines (content : GoString) : List GoString :=
  ((rawLines content).takeWhile (fun l => decide (byteLen l < MaxScanTokenSize))).map dropCR

/-- A file that `os.Open` has opened. -/
structure File where
  /-- The bytes of the file. -/
  content : GoString
  /-- With `some n` a read of the file fails once the scanner has handed out
  `n` lines; with `none` no read fails. -/
  failAfter : Option Nat
deriving DecidableEq, Repr

/-- The lines a scanner over the file hands out while `sc.Err()` is `nil`. -/
def usedLines (f : File) : List GoString :=
  match f.failAfter with
  | none => ScanLines f.content
  | some n => (ScanLines f.content).take n

/-- The turns of the loop `for sc.Scan()` over the file: the value of
`sc.Text()` and whether `sc.Err()` is not `nil`.  After a failed read the
scanner hands out what it still holds with the error set. -/
def scanTurns (f : File) : List (GoString × Bool) :=
  (usedLines f).map (fun t => (t, false)) ++
    match f.failAfter with
    | none => []
    | some n => ((ScanLines f.content).drop n).map (fun t => (t, true))

/-! ## Options and `init` -/

/-- The struct `option` of `main.go`. -/
structure option where
  version : Bool
  root : GoString
  allowAddr : GoString
  port : GoString
  conf : GoString
  genConf : Bool
deriving DecidableEq, Repr

/-- The operating system as the program sees it. -/
structure Env where
  /-- Result of `os.Open(path)`: the file, `none` on error. -/
  openFile : GoString → Option File
  /-- Result of `os.Getwd()`, `none` on error. -/
  getwd : Option GoString
  /-- Result of `os.Stat(path)`: `some b` with `b = info.IsDir()`, `none` on
  error. -/
  stat : GoString → Option Bool
  /-- Whether writing the template to standard output succeeds. -/
  stdoutOk : Bool

/-- A Go `map[string]bool`, read by lookup; a missing key reads `false`. -/
abbrev AddrMap := GoString → Bool

/-- The value `make(map[string]bool)`. -/
def emptyMap : AddrMap := fun _ => false

/-- The assignment `m[s] = true`. -/
def setTrue (m : AddrMap) (s : GoString) : AddrMap :=
  fun k => if k = s then true else m k

/-- The constant `sep` of `init`. -/
def sep : Char := ' '

/-- The constant `bind` of `init`, the default of `-port`. -/
def bind : GoString := "127.0.0.1:8080".toList

/-- The values of the flags when no flag is given; the default of `-conf` is
the value of `confPath`. -/
def defaultFlags (confPath : GoString) : option :=
  { version := false, root := [], allowAddr := "127.0.0.1".toList, port := bind,
    conf := confPath, genConf := false }

/-- One turn of the scan loop of `init` on the line `text`. -/
def scanStep (opt : option) (text : GoString) : option :=
  let s := TrimSpace text
  if HasPrefix s "#".toList then opt
  else if HasPrefix s "allow=".toList then
    { opt with allowAddr := opt.allowAddr ++ [sep] ++ TrimPrefix s "allow=".toList }
  else if HasPrefix s "port=".toList then
    { opt with port := TrimPrefix s "port=".toList }
  else if HasPrefix s "root=".toList then
    { opt with root := TrimPrefix s "root=".toList }
  else opt

/-- The loop `for sc.Scan()` of `init` over the turns of the scanner: a turn
with `sc.Err() != nil` leaves the loop before its line is looked at. -/
def scanLoop : option → List (GoString × Bool) → option
  | opt, [] => opt
  | opt, (text, failed) :: rest =>
    if failed then opt else scanLoop (scanStep opt text) rest

/-- The options after the part of `init` that reads the configuration file;
`opt` holds the flag values after `flag.Parse()`. -/
def readConf (opt : option) (env : Env) : option :=
  if opt.conf ≠ [] then
    match env.openFile opt.conf with
    | none => opt
    | some f => scanLoop { opt with allowAddr := [] } (scanTurns f)
  else opt

/-- The last loop of `init`: every token of the allow spec is set in the
map. -/
def buildAllow (allowAddr : GoString) : AddrMap :=
  (Split allowAddr sep).foldl setTrue emptyMap

/-- The function `init` of `main.go`: the options and `AllowAddrMap` it
leaves behind.  Log output is left out. -/
def init (flags : option) (env : Env) : option × AddrMap :=
  let opt := readConf flags env
  (opt, buildAllow opt.allowAddr)

/-! ## `ServWithLog` -/

/-- The fields of `http.Request` that `ServWithLog` reads. -/
structure Request where
  RemoteAddr : GoString
  RequestURI : GoString
deriving DecidableEq, Repr

/-- What a call of the handler returned by `ServWithLog` does, in order. -/
inductive Event where
  /-- The message of a `log.Println` call, without the prefix and the time
  stamp the logger puts in front. -/
  | log (line : GoString)
  /-- The call `http.Error(w, msg, code)`. -/
  | httpError (msg : GoString) (code : Nat)
  /-- The call `handler.ServeHTTP(w, r)` of the wrapped handler. -/
  | serveHTTP (r : Request)
  /-- A run-time panic, which ends the call. -/
  | panic
deriving DecidableEq, Repr

/-- The text `log.Println(a, b)` writes for two strings: the operands with a
space between them and a newline. -/
def Println2 (a b : GoString) : GoString := a ++ [' '] ++ b ++ ['\n']

/-- The handler returned by `ServWithLog`, run on the request `r` with
`AllowAddrMap = allow`. -/
def ServWithLog (allow : AddrMap) (r : Request) : List Event :=
  Event.log (Println2 r.RemoteAddr r.RequestURI) ::
    match ipValidator r.RemoteAddr with
    | none => [Event.panic]
    | some ip =>
      if allow ip then [Event.serveHTTP r]
      else [Event.log (Println2 "rejected ".toList r.RemoteAddr),
            Event.httpError "Blocked".toList 403]

/-! ## `main` -/

/-- How `main` ends. -/
inductive Outcome where
  /-- A call of `log.Fatal`, which exits with status 1. -/
  | fatal
  /-- A call of `os.Exit(code)`. -/
  | exit (code : Nat)
  /-- The call `http.ListenAndServe(port, nil)` with the file server of
  `http.Dir(root)` registered behind `ServWithLog`. -/
  | serve (port root : GoString)
deriving DecidableEq, Repr

/-- The function `main` of `main.go`, started with the options `opt0` left
by `init` and the positional arguments `args`. -/
def main (opt0 : option) (args : List GoString) (env : Env) : Outcome :=
  let afterArgs : Option option :=
    if args.length = 1 then some { opt0 with root := args.headD [] }
    else if args.length ≠ 0 then none
    else some opt0
  match afterArgs with
  | none => Outcome.fatal
  | some opt1 =>
    if opt1.version then Outcome.exit 0
    else
      let afterRoot : Option option :=
        if opt1.root = [] then
          match env.getwd with
          | none => none
          | some pwd => some { opt1 with root := pwd }
        else some opt1
      match afterRoot with
      | none => Outcome.fatal
      | some opt2 =>
        if opt2.genConf then
          if env.stdoutOk then Outcome.exit 0 else Outcome.fatal
        else
          match env.stat opt2.root with
          | none => Outcome.fatal
          | some isDir =>
            if !isDir then Outcome.fatal
            else Outcome.serve opt2.port opt2.root

/-- The program: `init` on the parsed flags, then `main` on the positional
arguments. -/
def program (flags : option) (args : List GoString) (env : Env) : Outcome :=
  main (init flags env).1 args env

/-- The variable `AllowAddrMap` as `init` leaves it, read-only from then
on. -/
def AllowAddrMap (flags : option) (env : Env) : AddrMap := (init flags env).2

/-! ## Auxiliary definitions -/

/-- The value a line adds to the allow spec, if any. -/
def allowValue (text : GoString) : Option GoString :=
  let s := TrimSpace text
  if HasPrefix s "#".toList then none
  else if HasPrefix s "allow=".toList then some (TrimPrefix s "allow=".toList)
  else none

/-! ## Example environments -/

/-- The directories of the example machines: `/srv` and `/b`. -/
def statExample (p : GoString) : Option Bool :=
  if p = "/srv".toList ∨ p = "/b".toList then some true else none

/-- A machine without a configuration file, started in `/srv`. -/
def envNoConf : Env :=
  { openFile := fun _ => none
    getwd := some "/srv".toList
    stat := statExample
    stdoutOk := true }

/-- A machine whose `server.conf` has the given content, started in
`/srv`. -/
def envConf (content : GoString) : Env :=
  { openFile := fun p =>
      if p = "server.conf".toList then some { content := content, failAfter := none } else none
    getwd := some "/srv".toList
    stat := statExample
    stdoutOk := true }

/-- The flags of a start without arguments. -/
def flags0 : option := defaultFlags "server.conf".toList

/-- The flags of a start with `-allow "1.1.1.1"`. -/
def flagsAllow : option := { flags0 with allowAddr := "1.1.1.1".toList }

/-- The flags of a start with `-root=/a`. -/
def flagsRoot : option := { flags0 with root := "/a".toList }

/-! ## Lemmas on `Split` and on the map -/

theorem Split_ne_nil (s : GoString) (c : Char) : Split s c ≠ [] := by
  induction s with
  | nil => simp [Split]
  | cons x xs ih =>
    unfold Split
    split
    · simp
    · split <;> simp

theorem Split_nil (c : Char) : Split [] c = [[]] := rfl

theorem Split_sep_cons (s : GoString) (c : Char) : Split (c :: s) c = [] :: Split s c := by
  simp [Split]

/-- Splitting a text that holds a separator splits the two sides. -/
theorem Split_append_sep (a b : GoString) (c : Char) :
    Split (a ++ c :: b) c = Split a c ++ Split b c := by
  induction a with
  | nil => simp [Split]
  | cons x xs ih =>
    by_cases hx : x = c
    · subst hx
      simp [Split, ih]
    · have hne2 := Split_ne_nil xs c
      cases h : Split xs c with
      | nil => exact absurd h hne2
      | cons t ts =>
        rw [h] at ih
        simp [Split, hx, ih, h]

theorem foldl_setTrue_iff (l : List GoString) (m : AddrMap) (a : GoString) :
    l.foldl setTrue m a = true ↔ m a = true ∨ a ∈ l := by
  induction l generalizing m with
  | nil => simp
  | cons x xs ih =>
    rw [List.foldl_cons, ih]
    unfold setTrue
    by_cases h : a = x
    · simp [h]
    · simp [h]

/-- A string reads `true` in the map built from a spec exactly when it is
one of the tokens of the spec. -/
theorem buildAllow_iff (spec a : GoString) :
    buildAllow spec a = true ↔ a ∈ Split spec sep := by
  unfold buildAllow
  rw [foldl_setTrue_iff]
  simp [emptyMap]

/-! ## Lemmas on the scan loop -/

theorem scanStep_allowAddr (opt : option) (text : GoString) :
    (scanStep opt text).allowAddr =
      match allowValue text with
      | none => opt.allowAddr
      | some v => opt.allowAddr ++ sep :: v := by
  unfold scanStep allowValue
  simp only []
  split
  · rfl
  · split
    · simp
    · split
      · rfl
      · split <;> rfl

theorem allowValue_eq_some_iff (text v : GoString) :
    allowValue text = some v ↔ TrimSpace text = "allow=".toList ++ v := by
  unfold allowValue
  simp only []
  generalize TrimSpace text = s
  constructor
  · intro h
    split at h
    · exact absurd h (by simp)
    · split at h
      · rename_i hp
        simp only [HasPrefix, List.isPrefixOf_iff_prefix] at hp
        obtain ⟨t, ht⟩ := hp
        have hv : TrimPrefix s "allow=".toList = v := by simpa using h
        subst ht
        simp [TrimPrefix, HasPrefix] at hv
        simp [hv]
      · exact absurd h (by simp)
  · intro h
    subst h
    simp [HasPrefix, TrimPrefix]

theorem foldl_scanStep_split (lines : List GoString) (opt : option) :
    Split (lines.foldl scanStep opt).allowAddr sep =
      Split opt.allowAddr sep ++ (lines.filterMap allowValue).flatMap (fun v => Split v sep) := by
  induction lines generalizing opt with
  | nil => simp
  | cons x xs ih =>
    rw [List.foldl_cons, ih, scanStep_allowAddr]
    cases h : allowValue x with
    | none => simp [List.filterMap_cons, h]
    | some v => simp [List.filterMap_cons, h, Split_append_sep]

theorem scanLoop_append (good bad : List GoString) (opt : option) :
    scanLoop opt (good.map (fun t => (t, false)) ++ bad.map (fun t => (t, true))) =
      good.foldl scanStep opt := by
  induction good generalizing opt with
  | nil =>
    cases bad with
    | nil => rfl
    | cons b bs => simp [scanLoop]
  | cons x xs ih => simp [scanLoop, ih]

/-- The loop works on the lines handed out while `sc.Err()` is `nil`, in
order, and on no other. -/
theorem scanLoop_scanTurns (f : File) (opt : option) :
    scanLoop opt (scanTurns f) = (usedLines f).foldl scanStep opt := by
  unfold scanTurns
  cases h : f.failAfter with
  | none => simpa using scanLoop_append (usedLines f) [] opt
  | some n => exact scanLoop_append (usedLines f) _ opt

/-- The options after reading a configuration file that opens. -/
theorem readConf_of_open (flags : option) (env : Env) (f : File)
    (hconf : flags.conf ≠ []) (hopen : env.openFile flags.conf = some f) :
    readConf flags env = (usedLines f).foldl scanStep { flags with allowAddr := [] } := by
  simp [readConf, hconf, hopen, scanLoop_scanTurns]

theorem ScanLines_subset (content : GoString) : ScanLines content ⊆ fileLines content := by
  unfold ScanLines fileLines
  exact List.map_subset _ (List.takeWhile_sublist _).subset

/-- Every line the loop works on is a line of the file. -/
theorem usedLines_subset (f : File) : usedLines f ⊆ fileLines f.content := by
  unfold usedLines
  cases f.failAfter with
  | none => exact ScanLines_subset _
  | some n => exact fun x hx => ScanLines_subset _ ((List.take_sublist _ _).subset hx)

/-- When no read fails and every line is shorter than `MaxScanTokenSize`,
the loop works on every line of the file. -/
theorem usedLines_eq_fileLines (f : File) (hread : f.failAfter = none)
    (hshort : ∀ l ∈ rawLines f.content, byteLen l < MaxScanTokenSize) :
    usedLines f = fileLines f.content := by
  unfold usedLines ScanLines fileLines
  rw [hread]
  simp only []
  rw [List.takeWhile_eq_self_iff.2 (fun l hl => by simpa using hshort l hl)]

theorem rawLinesFrom_line (cur line rest : GoString) (h : '\n' ∉ line) :
    rawLinesFrom cur (line ++ '\n' :: rest) = (cur ++ line) :: rawLinesFrom [] rest := by
  induction line generalizing cur with
  | nil => simp [rawLinesFrom]
  | cons x xs ih =>
    have hx : x ≠ '\n' := fun e => h (by simp [e])
    have hxs : '\n' ∉ xs := fun e => h (by simp [e])
    simp [rawLinesFrom, hx, ih _ hxs]

/-- A first line of `MaxScanTokenSize` bytes or more ends the scan with no
line handed out. -/
theorem ScanLines_long_first (line rest : GoString) (h : '\n' ∉ line)
    (hlong : MaxScanTokenSize ≤ byteLen line) :
    ScanLines (line ++ '\n' :: rest) = [] := by
  unfold ScanLines rawLines
  rw [rawLinesFrom_line [] line rest h]
  simp only [List.nil_append]
  rw [List.takeWhile_cons]
  simp [Nat.not_lt.2 hlong]

theorem byteLen_replicate_a (n : Nat) : byteLen (List.replicate n 'a') = n := by
  induction n with
  | zero => rfl
  | succ k ih =>
    have h1 : runeLen 'a' = 1 := by decide
    simp only [byteLen, List.replicate_succ, List.map_cons, List.sum_cons, h1] at ih ⊢
    omega

/-- With a configuration file that opens, the tokens of the final allow
spec are the empty string and the tokens of the values of the `allow=`
lines. -/
theorem AllowAddrMap_tokens (flags : option) (env : Env) (f : File)
    (hconf : flags.conf ≠ []) (hopen : env.openFile flags.conf = some f)
    (a : GoString) :
    AllowAddrMap flags env a = true ↔
      a = [] ∨ ∃ text ∈ usedLines f, ∃ v,
        TrimSpace text = "allow=".toList ++ v ∧ a ∈ Split v sep := by
  unfold AllowAddrMap init
  simp only []
  rw [buildAllow_iff, readConf_of_open flags env f hconf hopen, foldl_scanStep_split]
  simp only [Split_nil, List.singleton_append, List.mem_cons, List.mem_flatMap,
    List.mem_filterMap, allowValue_eq_some_iff]
  constructor
  · rintro (h | ⟨v, ⟨text, ht, hv⟩, ha⟩)
    · exact Or.inl h
    · exact Or.inr ⟨text, ht, v, hv, ha⟩
  · rintro (h | ⟨text, ht, v, hv, ha⟩)
    · exact Or.inl h
    · exact Or.inr ⟨v, ⟨text, ht, hv⟩, ha⟩

/-! ## Lemmas on `ipValidator` -/

theorem take_length_takeWhile (p : Char → Bool) (s : GoString) :
    s.take (s.takeWhile p).length = s.takeWhile p := by
  induction s with
  | nil => rfl
  | cons x xs ih =>
    by_cases h : p x
    · simp [List.takeWhile_cons, h, ih]
    · simp [List.takeWhile_cons, h]

theorem takeWhile_append_sep (ip rest : GoString) (r : Char) (h : r ∉ ip) :
    (ip ++ r :: rest).takeWhile (fun c => c != r) = ip := by
  induction ip with
  | nil => simp [List.takeWhile_cons]
  | cons x xs ih =>
    have hx : x ≠ r := fun e => h (by simp [e])
    have hxs : r ∉ xs := fun e => h (by simp [e])
    simp [List.takeWhile_cons, hx, ih hxs]

/-- The slice `address[:strings.IndexRune(address, r)]` is the text in front
of the first `r` when there is one and panics when there is none. -/
theorem sliceTo_IndexRune (s : GoString) (r : Char) :
    sliceTo s (IndexRune s r) =
      if r ∈ s then some (s.takeWhile (fun c => c != r)) else none := by
  unfold sliceTo IndexRune
  by_cases h : r ∈ s
  · have hle : (s.takeWhile (fun c => c != r)).length ≤ s.length :=
      (List.takeWhile_sublist _).length_le
    simp only [h, if_true]
    rw [if_pos ⟨Int.natCast_nonneg _, by exact_mod_cast hle⟩]
    simp [take_length_takeWhile]
  · simp [h]

theorem isIP4_iff (s : GoString) : isIP4 s = true ↔ '.' ∈ s := by
  simp [isIP4, List.any_eq_true]

/-- The function panics exactly on an address with a `.` and without `:`. -/
theorem ipValidator_eq_none_iff (address : GoString) :
    ipValidator address = none ↔ '.' ∈ address ∧ ':' ∉ address := by
  unfold ipValidator
  rw [sliceTo_IndexRune]
  by_cases hd : '.' ∈ address
  · have hd2 := (isIP4_iff address).2 hd
    by_cases hc : ':' ∈ address
    · simp only [hd2, if_true, hc, hd, not_true_eq_false, and_false, iff_false]
      split <;> simp
    · simp [hd2, hc, hd]
  · have hd2 : isIP4 address = false := by
      rw [← Bool.not_eq_true, isIP4_iff]; exact hd
    simp only [hd2, hd, false_and, iff_false, Bool.false_eq_true, if_false]
    split <;> simp

/-- On `ip:port` with a dotted `ip` free of `:` the function gives the empty
string when `net.ParseIP` accepts `ip` and gives `ip` back when it does
not. -/
theorem ipValidator_hostport (ip port : GoString) (hdot : '.' ∈ ip) (hcolon : ':' ∉ ip) :
    ipValidator (ip ++ ':' :: port) = some (if ParseIP ip then [] else ip) := by
  unfold ipValidator
  rw [sliceTo_IndexRune]
  have h1 : isIP4 (ip ++ ':' :: port) = true := by
    rw [isIP4_iff]; simp [hdot]
  have h2 : ':' ∈ ip ++ ':' :: port := by simp
  simp only [h1, if_true, h2, takeWhile_append_sep ip port ':' hcolon, isValid]
  by_cases hp : ParseIP ip = true
  · simp [hp]
  · simp [hp]

/-! ## Lemmas on `main` -/

theorem scanStep_modes (opt : option) (text : GoString) :
    (scanStep opt text).version = opt.version ∧ (scanStep opt text).genConf = opt.genConf := by
  unfold scanStep
  simp only []
  split
  · exact ⟨rfl, rfl⟩
  · split
    · exact ⟨rfl, rfl⟩
    · split
      · exact ⟨rfl, rfl⟩
      · split <;> exact ⟨rfl, rfl⟩

theorem foldl_scanStep_modes (lines : List GoString) (opt : option) :
    (lines.foldl scanStep opt).version = opt.version ∧
      (lines.foldl scanStep opt).genConf = opt.genConf := by
  induction lines generalizing opt with
  | nil => exact ⟨rfl, rfl⟩
  | cons x xs ih =>
    rw [List.foldl_cons]
    exact ⟨(ih _).1.trans (scanStep_modes opt x).1, (ih _).2.trans (scanStep_modes opt x).2⟩

/-- Reading the configuration file leaves `version` and `genConf` as the
flags set them. -/
theorem readConf_modes (flags : option) (env : Env) :
    (readConf flags env).version = flags.version ∧
      (readConf flags env).genConf = flags.genConf := by
  unfold readConf
  split
  · split
    · exact ⟨rfl, rfl⟩
    · rw [scanLoop_scanTurns]
      exact foldl_scanStep_modes _ _
  · exact ⟨rfl, rfl⟩

/-- With one positional argument `p`, `main` can only serve `p`, or the
working directory when `p` is empty, and does so when neither mode flag is
set and that root is a directory. -/
theorem main_positional (opt0 : option) (env : Env) (p : GoString) :
    (∀ port root, main opt0 [p] env = Outcome.serve port root →
      (if p = [] then env.getwd else some p) = some root) ∧
    (∀ root, (if p = [] then env.getwd else some p) = some root →
      opt0.version = false → opt0.genConf = false → env.stat root = some true →
      main opt0 [p] env = Outcome.serve opt0.port root) := by
  by_cases hp : p = []
  · subst hp
    constructor
    · intro port root h
      unfold main at h
      simp only [List.length_singleton, if_true, List.headD_cons] at h
      split at h
      · exact absurd h (by simp)
      · cases hw : env.getwd with
        | none => simp [hw] at h
        | some pwd =>
          simp only [hw] at h
          split at h
          · split at h <;> exact absurd h (by simp)
          · split at h
            · exact absurd h (by simp)
            · split at h
              · exact absurd h (by simp)
              · simp only [Outcome.serve.injEq] at h
                simp [h.2]
    · intro root hr hv hg hs
      simp only [if_true] at hr
      unfold main
      simp [hr, hv, hg, hs]
  · constructor
    · intro port root h
      unfold main at h
      simp only [List.length_singleton, if_true, List.headD_cons, hp, if_false] at h
      split at h
      · exact absurd h (by simp)
      · split at h
        · split at h <;> exact absurd h (by simp)
        · split at h
          · exact absurd h (by simp)
          · split at h
            · exact absurd h (by simp)
            · simp only [Outcome.serve.injEq] at h
              rw [if_neg hp, h.2]
    · intro root hr hv hg hs
      simp only [hp, if_false, Option.some.injEq] at hr
      subst hr
      unfold main
      simp [hp, hv, hg, hs]

/-- With the empty string as the one positional argument and no working
directory to be had, `main` ends in `log.Fatal` unless `-version` is set. -/
theorem main_empty_no_getwd (opt0 : option) (env : Env) (hv : opt0.version = false)
    (hw : env.getwd = none) : main opt0 [[]] env = Outcome.fatal := by
  unfold main
  simp [hv, hw]

/-- Behind a first line of `n` letters `a`, with `n` at least
`MaxScanTokenSize`, the line `allow=2.2.2.2` is not read. -/
theorem AllowAddrMap_long_first (n : Nat) (hn : MaxScanTokenSize ≤ n) :
    AllowAddrMap flags0
      (envConf (List.replicate n 'a' ++ '\n' :: "allow=2.2.2.2\n".toList))
      "2.2.2.2".toList = false := by
  generalize hc : List.replicate n 'a' ++ '\n' :: "allow=2.2.2.2\n".toList = content
  have hnl : '\n' ∉ List.replicate n 'a' := by
    intro h
    exact absurd (List.eq_of_mem_replicate h) (by decide)
  have hscan : ScanLines content = [] := by
    rw [← hc]
    exact ScanLines_long_first _ _ hnl (by rw [byteLen_replicate_a]; exact hn)
  have hconf : flags0.conf ≠ [] := by decide
  have hopen : (envConf content).openFile flags0.conf =
      some { content := content, failAfter := none } := by
    have : flags0.conf = "server.conf".toList := rfl
    simp [envConf, this]
  have hread := readConf_of_open flags0 (envConf content)
    { content := content, failAfter := none } hconf hopen
  have hused : usedLines { content := content, failAfter := none } = [] := hscan
  rw [hused] at hread
  rw [← Bool.not_eq_true, AllowAddrMap, init]
  simp only []
  rw [buildAllow_iff, hread]
  decide

/-! ## The claims -/

/-- Claim C1, evaluated on the code: with the allowlist resolved from a
`server.conf` holding `allow=2.2.2.2`, the address `10.0.0.5` is not a
member, and the request from `10.0.0.5:1000` is passed to the wrapped
handler, with no 403. -/
theorem servWithLog_forwards_unlisted :
    AllowAddrMap flags0 (envConf "allow=2.2.2.2\n".toList) "10.0.0.5".toList = false ∧
    ServWithLog (AllowAddrMap flags0 (envConf "allow=2.2.2.2\n".toList))
        ⟨"10.0.0.5:1000".toList, "/".toList⟩ =
      [Event.log "10.0.0.5:1000 /\n".toList,
       Event.serveHTTP ⟨"10.0.0.5:1000".toList, "/".toList⟩] := by
  decide

/-- Claim C2, evaluated on the code: with the default allowlist, of which
`127.0.0.1` is a member, the request from `127.0.0.1:54321` is answered
with 403 and the wrapped handler is not called. -/
theorem servWithLog_blocks_listed :
    AllowAddrMap flags0 envNoConf "127.0.0.1".toList = true ∧
    ServWithLog (AllowAddrMap flags0 envNoConf) ⟨"127.0.0.1:54321".toList, "/".toList⟩ =
      [Event.log "127.0.0.1:54321 /\n".toList,
       Event.log "rejected  127.0.0.1:54321\n".toList,
       Event.httpError "Blocked".toList 403] := by
  decide

/-- Claim C3, evaluated on the code: `127.0.0.1` parses as an address, and
`ipValidator` gives the empty string for `127.0.0.1:8080`, not
`127.0.0.1`. -/
theorem ipValidator_valid_gives_empty :
    ParseIP "127.0.0.1".toList = true ∧
    ipValidator "127.0.0.1:8080".toList = some [] := by
  decide

/-- Claim C4, evaluated on the code: `not-an-ip:8080` has no `.` and does
not parse as an address, and `ipValidator` gives it back whole, not the
empty string. -/
theorem ipValidator_malformed_gives_input :
    isIP4 "not-an-ip:8080".toList = false ∧
    ParseIP "not-an-ip:8080".toList = false ∧
    ipValidator "not-an-ip:8080".toList = some "not-an-ip:8080".toList := by
  decide

/-- Claim C5 fails as stated: with `-allow "1.1.1.1"` and a file holding
`allow=2.2.2.2`, the allowlist has a member other than `2.2.2.2`, the
empty string. -/
theorem allow_precedence_counterexample :
    ¬ ∀ a, AllowAddrMap flagsAllow (envConf "allow=2.2.2.2".toList) a = true →
      a = "2.2.2.2".toList := by
  intro h
  exact absurd (h [] (by decide)) (by decide)

/-- Claim C5, amended: when the configuration file opens, every non-empty
member of the resolved allowlist is a space-separated token behind `allow=`
on a line of the file, whatever the command line gave for `-allow`. -/
theorem allow_from_conf_only (flags : option) (env : Env) (f : File)
    (hconf : flags.conf ≠ []) (hopen : env.openFile flags.conf = some f)
    (a : GoString) (ha : a ≠ []) (hmem : AllowAddrMap flags env a = true) :
    ∃ text ∈ fileLines f.content, ∃ v,
      TrimSpace text = "allow=".toList ++ v ∧ a ∈ Split v sep := by
  rcases (AllowAddrMap_tokens flags env f hconf hopen a).1 hmem with h | ⟨text, ht, v, hv, hav⟩
  · exact absurd h ha
  · exact ⟨text, usedLines_subset f ht, v, hv, hav⟩

/-- Claim C5 at `-allow "1.1.1.1"` with a file holding `allow=2.2.2.2`:
the member `2.2.2.2` stands on a line of the file, and `1.1.1.1` is no
member. -/
theorem allow_from_conf_only_witness :
    (flagsAllow.conf ≠ [] ∧
     (envConf "allow=2.2.2.2".toList).openFile flagsAllow.conf =
       some { content := "allow=2.2.2.2".toList, failAfter := none } ∧
     "2.2.2.2".toList ≠ ([] : GoString) ∧
     AllowAddrMap flagsAllow (envConf "allow=2.2.2.2".toList) "2.2.2.2".toList = true) ∧
    (∃ text ∈ fileLines "allow=2.2.2.2".toList, ∃ v,
      TrimSpace text = "allow=".toList ++ v ∧ "2.2.2.2".toList ∈ Split v sep) ∧
    AllowAddrMap flagsAllow (envConf "allow=2.2.2.2".toList) "1.1.1.1".toList = false :=
  ⟨⟨by decide, by decide, by decide, by decide⟩,
   allow_from_conf_only flagsAllow (envConf "allow=2.2.2.2".toList)
     { content := "allow=2.2.2.2".toList, failAfter := none }
     (by decide) (by decide) "2.2.2.2".toList (by decide) (by decide),
   by decide⟩

/-- Claim C6 fails as stated: in a file that opens and whose first line has
65536 bytes, the line `allow=2.2.2.2` behind it is never read, and
`2.2.2.2` is no member of the resolved allowlist. -/
theorem allow_accumulates_counterexample :
    AllowAddrMap flags0
      (envConf (List.replicate 65536 'a' ++ '\n' :: "allow=2.2.2.2\n".toList))
      "2.2.2.2".toList = false :=
  AllowAddrMap_long_first 65536 (by decide)

/-- Claim C6, amended: when the configuration file opens, every
space-separated token behind `allow=` on a line that the scan loop reads is
a member of the resolved allowlist; the loop reads the lines in front of
the first line of `MaxScanTokenSize` bytes or more and in front of a failed
read. -/
theorem allow_accumulates (flags : option) (env : Env) (f : File)
    (hconf : flags.conf ≠ []) (hopen : env.openFile flags.conf = some f)
    (text v a : GoString) (htext : text ∈ usedLines f)
    (hv : TrimSpace text = "allow=".toList ++ v) (ha : a ∈ Split v sep) :
    AllowAddrMap flags env a = true :=
  (AllowAddrMap_tokens flags env f hconf hopen a).2 (Or.inr ⟨text, htext, v, hv, ha⟩)

/-- Claim C6 on the file with the two lines `allow=1.1.1.1` and
`allow=2.2.2.2`, read to its end: both addresses are members. -/
theorem allow_accumulates_witness :
    AllowAddrMap flags0 (envConf "allow=1.1.1.1\nallow=2.2.2.2\n".toList) "1.1.1.1".toList = true ∧
    AllowAddrMap flags0 (envConf "allow=1.1.1.1\nallow=2.2.2.2\n".toList) "2.2.2.2".toList = true :=
  ⟨allow_accumulates flags0 (envConf "allow=1.1.1.1\nallow=2.2.2.2\n".toList)
      { content := "allow=1.1.1.1\nallow=2.2.2.2\n".toList, failAfter := none }
      (by decide) (by decide)
      "allow=1.1.1.1".toList "1.1.1.1".toList "1.1.1.1".toList
      (by decide) (by decide) (by decide),
   allow_accumulates flags0 (envConf "allow=1.1.1.1\nallow=2.2.2.2\n".toList)
      { content := "allow=1.1.1.1\nallow=2.2.2.2\n".toList, failAfter := none }
      (by decide) (by decide)
      "allow=2.2.2.2".toList "2.2.2.2".toList "2.2.2.2".toList
      (by decide) (by decide) (by decide)⟩

/-- Claim C7 fails as stated: started with `-root=/a` and the empty string
as the one positional argument, the program serves the working directory
`/srv`, which is not the argument. -/
theorem positional_empty_counterexample :
    program flagsRoot [[]] envNoConf = Outcome.serve bind "/srv".toList ∧
    "/srv".toList ≠ ([] : GoString) := by
  decide

/-- Claim C7, amended: for all flags, every configuration file and every
single positional argument `p`, the root the program serves is `p` when `p`
is not empty and the working directory when `p` is empty.  The program
serves no other root, and it serves this one when neither `-version` nor
`-gen-conf` is set and the root is a directory; when `p` is empty and the
working directory cannot be had, it serves nothing. -/
theorem positional_root (flags : option) (env : Env) (p : GoString) :
    (∀ port root, program flags [p] env = Outcome.serve port root →
      (if p = [] then env.getwd else some p) = some root) ∧
    (∀ root, (if p = [] then env.getwd else some p) = some root →
      flags.version = false → flags.genConf = false → env.stat root = some true →
      program flags [p] env = Outcome.serve (init flags env).1.port root) := by
  have hv := (readConf_modes flags env).1
  have hg := (readConf_modes flags env).2
  have h := main_positional (init flags env).1 env p
  exact ⟨h.1, fun root hr hv0 hg0 hs => h.2 root hr (hv.trans hv0) (hg.trans hg0) hs⟩

/-- Claim C7 at `-root=/a`, a file with `root=/c` and the positional
argument `/b`: the program serves `/b`; and at the empty positional
argument on the same machine, started in `/srv`: it serves `/srv`. -/
theorem positional_root_witness :
    program flagsRoot ["/b".toList] (envConf "root=/c\n".toList) =
      Outcome.serve bind "/b".toList ∧
    program flagsRoot [[]] (envConf "root=/c\n".toList) =
      Outcome.serve bind "/srv".toList :=
  ⟨(positional_root flagsRoot (envConf "root=/c\n".toList) "/b".toList).2 "/b".toList
     (by decide) (by decide) (by decide) (by decide),
   (positional_root flagsRoot (envConf "root=/c\n".toList) []).2 "/srv".toList
     (by decide) (by decide) (by decide) (by decide)⟩

/-- Claim C8 fails as stated: for the allow spec made of a space and
`2.2.2.2` the empty string is a member of the allowlist. -/
theorem allowlist_empty_token_counterexample :
    buildAllow " 2.2.2.2".toList [] = true := by
  decide

/-- Claim C8, amended: for every allow spec, a string is a member of the
allowlist exactly when it is a token, empty or not, of the spec split on
the single space. -/
theorem allowlist_mem_iff_token (spec a : GoString) :
    buildAllow spec a = true ↔ a ∈ Split spec ' ' :=
  buildAllow_iff spec a

/-- Claim C9, evaluated on the code: on `127.0.0.1`, which has a `.` and no
`:`, `strings.IndexRune` gives `-1`, the slice bound is out of range and
`ipValidator` panics. -/
theorem ipValidator_panics_without_port :
    IndexRune "127.0.0.1".toList ':' = -1 ∧
    sliceTo "127.0.0.1".toList (-1) = none ∧
    ipValidator "127.0.0.1".toList = none := by
  decide

/-- Claim C10: when the configuration file opens, the empty string is a
member of the resolved allowlist, whatever the file holds, wherever the scan
of it ends and whatever the command line gave for `-allow`. -/
theorem empty_string_allowed (flags : option) (env : Env) (f : File)
    (hconf : flags.conf ≠ []) (hopen : env.openFile flags.conf = some f) :
    AllowAddrMap flags env [] = true :=
  (AllowAddrMap_tokens flags env f hconf hopen []).2 (Or.inl rfl)

/-- Claim C10 on a file without an `allow=` line, started with
`-allow "1.1.1.1"`. -/
theorem empty_string_allowed_witness :
    (flagsAllow.conf ≠ [] ∧
     (envConf "port=:8080\n".toList).openFile flagsAllow.conf =
       some { content := "port=:8080\n".toList, failAfter := none }) ∧
    AllowAddrMap flagsAllow (envConf "port=:8080\n".toList) [] = true :=
  ⟨⟨by decide, by decide⟩,
   empty_string_allowed flagsAllow (envConf "port=:8080\n".toList)
     { content := "port=:8080\n".toList, failAfter := none }
     (by decide) (by decide)⟩

end Tinyserver
